import Mathlib

/-!
Verification of the core components of the news-scraper repository
(`src/bot_core.py`, `src/scraper.py`): the merge engine, the retention
policy, the relevance model, the Telegraph publisher with credential
rotation, credential-pool provisioning, and the derived article id.

External effects (HTTP calls, file writes, the fitted sklearn pipeline,
Python's builtin string hash) are modelled as explicit parameters; the
control flow around them is translated directly from the source.
-/

namespace NewsScraper

/-- An article record as built by the scrapers and stored in the corpus
(the dicts assembled in `PortalManager._scrape_portal` and
`NewsAPIFetcher.fetch_headlines` in `bot_core.py`). -/
structure NewsItem where
  id : Nat
  source : String
  title : String
  url : String
  telegraph_url : Option String
  image : Option String
  summary : Option String
  scraped_at : String
  user_score : Option Int
deriving DecidableEq, Repr

/-- The URLs of a list of items, in order. -/
def urls (l : List NewsItem) : List String := l.map (fun n => n.url)

/-- Loop of `merge_news` (bot_core.py lines 373-383): `merged` starts as a
copy of the old corpus; each candidate whose URL is not among the OLD
corpus URLs is prepended (`merged.insert(0, n)`) and counted.  The
membership map `existing_map` is built once from `old_news` and never
updated inside the loop. -/
def merge_go (existing_urls : List String) :
    List NewsItem → Nat → List NewsItem → List NewsItem × Nat
  | merged, c, [] => (merged, c)
  | merged, c, n :: ns =>
    if n.url ∈ existing_urls then merge_go existing_urls merged c ns
    else merge_go existing_urls (n :: merged) (c + 1) ns

/-- `merge_news(old_news, new_news)` from bot_core.py lines 369-384. -/
def merge_news (old_news new_news : List NewsItem) : List NewsItem × Nat :=
  merge_go (urls old_news) old_news 0 new_news

/-- Candidates that are fresh with respect to a URL set (the negation of
the `n['url'] not in existing_map` test). -/
def isFresh (ex : List String) (n : NewsItem) : Bool := decide (n.url ∉ ex)

theorem merge_go_spec (ex : List String) (ns : List NewsItem) :
    ∀ (m : List NewsItem) (c : Nat),
      merge_go ex m c ns =
        ((ns.filter (isFresh ex)).reverse ++ m,
          c + (ns.filter (isFresh ex)).length) := by
  induction ns with
  | nil => intro m c; simp [merge_go]
  | cons n ns ih =>
    intro m c
    by_cases h : n.url ∈ ex
    · have hf : isFresh ex n = false := by simp [isFresh, h]
      simp [merge_go, h, hf, ih]
    · have hf : isFresh ex n = true := by simp [isFresh, h]
      simp only [merge_go, if_neg h, ih, List.filter_cons, hf, if_pos,
        List.reverse_cons, List.append_assoc, List.length_cons,
        List.singleton_append, Prod.mk.injEq]
      exact ⟨trivial, by omega⟩

theorem merge_news_spec (A B : List NewsItem) :
    merge_news A B =
      ((B.filter (isFresh (urls A))).reverse ++ A,
        (B.filter (isFresh (urls A))).length) := by
  simpa using merge_go_spec (urls A) B A 0

theorem urls_append (l₁ l₂ : List NewsItem) :
    urls (l₁ ++ l₂) = urls l₁ ++ urls l₂ := by
  simp [urls]

theorem mem_urls_merge (A B : List NewsItem) (u : String) :
    u ∈ urls (merge_news A B).1 ↔ u ∈ urls A ∨ u ∈ urls B := by
  rw [merge_news_spec]
  simp only [urls]
  constructor
  · intro hu
    rcases List.mem_map.mp hu with ⟨n, hn, rfl⟩
    rcases List.mem_append.mp hn with hn | hn
    · exact Or.inr (List.mem_map.mpr
        ⟨n, (List.mem_filter.mp (List.mem_reverse.mp hn)).1, rfl⟩)
    · exact Or.inl (List.mem_map.mpr ⟨n, hn, rfl⟩)
  · intro hu
    rcases hu with hu | hu
    · rcases List.mem_map.mp hu with ⟨n, hn, rfl⟩
      exact List.mem_map.mpr ⟨n, List.mem_append.mpr (Or.inr hn), rfl⟩
    · rcases List.mem_map.mp hu with ⟨n, hn, rfl⟩
      by_cases hA : n.url ∈ urls A
      · rcases List.mem_map.mp hA with ⟨a, haA, hae⟩
        exact hae ▸ List.mem_map.mpr ⟨a, List.mem_append.mpr (Or.inr haA), rfl⟩
      · refine List.mem_map.mpr ⟨n, List.mem_append.mpr (Or.inl ?_), rfl⟩
        refine List.mem_reverse.mpr (List.mem_filter.mpr ⟨hn, ?_⟩)
        simp only [isFresh, decide_eq_true_eq]
        exact hA

/-- A concrete candidate record used to exercise `merge_news` on a batch
holding the same URL twice. -/
def itemDup : NewsItem :=
  ⟨1, "S", "T", "http://dup", none, none, none, "2026-01-01T00:00:00", none⟩

/-- C2 (counterexample): with an empty corpus and a candidate list holding
the same URL twice, `merge_news` reports `addedCount = 2`, while the
cardinality of the set of candidate URLs absent from the corpus is 1 —
so `addedCount` is not the cardinality claimed. -/
theorem merge_addedCount_counterexample :
    (merge_news [] [itemDup, itemDup]).2 ≠
      ((urls [itemDup, itemDup]).filter
        (fun u => decide (u ∉ urls ([] : List NewsItem)))).dedup.length := by
  decide

/-- C2 (amended): `merge(A,B)` contains exactly the URLs of `A ∪ B`; the
whole of `A` reappears verbatim as the tail of the merged list (so every
stored `user_score` of `A` is unchanged); and `addedCount` equals the
number of ENTRIES of `B` whose URL is absent from `A` (a URL duplicated
inside `B` is added and counted once per occurrence). -/
theorem merge_union_law_amended (A B : List NewsItem) :
    (∀ u, u ∈ urls (merge_news A B).1 ↔ u ∈ urls A ∨ u ∈ urls B) ∧
      (∃ pre, (merge_news A B).1 = pre ++ A) ∧
      (merge_news A B).2 = (B.filter (isFresh (urls A))).length :=
  ⟨fun u => mem_urls_merge A B u,
   ⟨(B.filter (isFresh (urls A))).reverse, by rw [merge_news_spec]⟩,
   by rw [merge_news_spec]⟩

/-- C5: merging the same candidate batch a second time into the already
merged corpus adds nothing: `merge(merge(A,B).merged, B).addedCount = 0`. -/
theorem merge_idempotent (A B : List NewsItem) :
    (merge_news (merge_news A B).1 B).2 = 0 := by
  rw [merge_news_spec (merge_news A B).1 B, List.length_eq_zero,
    List.filter_eq_nil_iff]
  intro n hn
  simp only [isFresh, decide_eq_true_eq, Decidable.not_not]
  exact (mem_urls_merge A B n.url).mpr
    (Or.inr (List.mem_map.mpr ⟨n, hn, rfl⟩))

/-- The per-item keep test of `cleanup_and_sort_news` (bot_core.py lines
393-400): `scraped_at` is parsed; the item is kept when the parsed time is
STRICTLY newer than the cutoff (`item_date > cutoff`), and kept
defensively when parsing fails (the `except ValueError` arm).  `parse`
abstracts `datetime.fromisoformat`, returning a timestamp in seconds. -/
def keepItem (parse : String → Option Int) (cutoff : Int) (item : NewsItem) : Bool :=
  match parse item.scraped_at with
  | some t => decide (cutoff < t)
  | none => true

/-- Stable insertion on the `scraped_at` string key, descending.  Python's
`valid_items.sort(key=lambda x: x.get('scraped_at',''), reverse=True)` is
a stable non-increasing sort on that string key, and the stable
non-increasing reordering of a list is unique, so this insertion sort
computes exactly the list the source produces. -/
def insertDesc (a : NewsItem) : List NewsItem → List NewsItem
  | [] => [a]
  | b :: bs =>
    if a.scraped_at < b.scraped_at then b :: insertDesc a bs
    else a :: b :: bs

/-- Stable descending sort by the `scraped_at` string key. -/
def sortDesc : List NewsItem → List NewsItem
  | [] => []
  | a :: as => insertDesc a (sortDesc as)

/-- `cleanup_and_sort_news(news_items, hours)` from bot_core.py lines
386-406: drop items at or before `cutoff = now - hours` (times in
seconds, so the horizon is `hours * 3600`), retaining unparsable ones,
then sort by the `scraped_at` key descending, stably. -/
def cleanup_and_sort_news (parse : String → Option Int) (now : Int)
    (news_items : List NewsItem) (hours : Int) : List NewsItem :=
  let cutoff := now - hours * 3600
  sortDesc (news_items.filter (keepItem parse cutoff))

theorem cleanup_eq (parse : String → Option Int) (now hours : Int)
    (items : List NewsItem) :
    cleanup_and_sort_news parse now items hours =
      sortDesc (items.filter (keepItem parse (now - hours * 3600))) := rfl

theorem insertDesc_perm (a : NewsItem) (l : List NewsItem) :
    List.Perm (insertDesc a l) (a :: l) := by
  induction l with
  | nil => exact List.Perm.refl _
  | cons b bs ih =>
    simp only [insertDesc]
    by_cases h : a.scraped_at < b.scraped_at
    · rw [if_pos h]
      exact (ih.cons b).trans (List.Perm.swap a b bs)
    · rw [if_neg h]

theorem sortDesc_perm (l : List NewsItem) : List.Perm (sortDesc l) l := by
  induction l with
  | nil => exact List.Perm.refl _
  | cons a as ih => exact (insertDesc_perm a (sortDesc as)).trans (ih.cons a)

/-- Non-increasing order on the `scraped_at` key. -/
def SortedDesc (l : List NewsItem) : Prop :=
  l.Pairwise (fun a b => b.scraped_at ≤ a.scraped_at)

theorem sortedDesc_insertDesc (a : NewsItem) {l : List NewsItem}
    (h : SortedDesc l) : SortedDesc (insertDesc a l) := by
  induction l with
  | nil => simp [insertDesc, SortedDesc]
  | cons b bs ih =>
    rcases List.pairwise_cons.mp h with ⟨hb, hbs⟩
    simp only [insertDesc]
    by_cases hab : a.scraped_at < b.scraped_at
    · rw [if_pos hab]
      refine List.pairwise_cons.mpr ⟨?_, ih hbs⟩
      intro x hx
      have hmem : x = a ∨ x ∈ bs := by
        have hx2 := (insertDesc_perm a bs).mem_iff.mp hx
        simpa using hx2
      rcases hmem with rfl | hxbs
      · exact le_of_lt hab
      · exact hb x hxbs
    · rw [if_neg hab]
      push_neg at hab
      refine List.pairwise_cons.mpr ⟨?_, h⟩
      intro x hx
      rcases List.mem_cons.mp hx with rfl | hxbs
      · exact hab
      · exact le_trans (hb x hxbs) hab

theorem sortDesc_sorted (l : List NewsItem) : SortedDesc (sortDesc l) := by
  induction l with
  | nil => exact List.Pairwise.nil
  | cons a as ih => exact sortedDesc_insertDesc a ih

theorem filter_insertDesc (k : String) (a : NewsItem) (l : List NewsItem) :
    (insertDesc a l).filter (fun x => decide (x.scraped_at = k)) =
      (a :: l).filter (fun x => decide (x.scraped_at = k)) := by
  induction l with
  | nil => rfl
  | cons b bs ih =>
    simp only [insertDesc]
    by_cases hab : a.scraped_at < b.scraped_at
    · rw [if_pos hab]
      by_cases hbk : b.scraped_at = k
      · have hak : ¬ a.scraped_at = k := by
          intro hk
          rw [hk, ← hbk] at hab
          exact lt_irrefl _ hab
        simp [List.filter_cons, hbk, hak, ih]
      · simp [List.filter_cons, hbk, ih]
    · rw [if_neg hab]

theorem filter_sortDesc (k : String) (l : List NewsItem) :
    (sortDesc l).filter (fun x => decide (x.scraped_at = k)) =
      l.filter (fun x => decide (x.scraped_at = k)) := by
  induction l with
  | nil => rfl
  | cons a as ih => rw [sortDesc, filter_insertDesc, List.filter_cons,
      List.filter_cons, ih]

/-- A parse function for concrete retention tests: the single timestamp
string below parses to time 0, anything else fails to parse. -/
def parse0 : String → Option Int :=
  fun s => if s = "2026-01-01T00:00:00" then some 0 else none

/-- A concrete corpus entry with a parsable timestamp (time 0). -/
def itemOld : NewsItem :=
  ⟨2, "S", "T", "http://old", none, none, none, "2026-01-01T00:00:00", none⟩

/-- C3 (counterexample): an entry whose age is EXACTLY the horizon
(`now - t = hours * 3600`) satisfies the claim's "age at most h", yet the
code drops it, because the source keeps an item only when
`item_date > cutoff` holds strictly. -/
theorem cleanup_boundary_counterexample :
    parse0 itemOld.scraped_at = some 0 ∧
      (72 * 3600 : Int) - 0 ≤ 72 * 3600 ∧
      itemOld ∉ cleanup_and_sort_news parse0 (72 * 3600) [itemOld] 72 := by
  decide

/-- C3 (amended): an entry with a parsable `scraped_at` is in the output
iff its age is STRICTLY below the horizon; an entry whose `scraped_at`
does not parse is always retained (and the operation is total, so it
never raises); and the output is sorted non-increasingly on the
`scraped_at` key, entries with equal keys keeping the relative order
they had in the input. -/
theorem cleanup_retention_amended (parse : String → Option Int)
    (now hours : Int) (items : List NewsItem) :
    (∀ item ∈ items, ∀ t, parse item.scraped_at = some t →
        (item ∈ cleanup_and_sort_news parse now items hours ↔
          now - t < hours * 3600)) ∧
      (∀ item ∈ items, parse item.scraped_at = none →
        item ∈ cleanup_and_sort_news parse now items hours) ∧
      SortedDesc (cleanup_and_sort_news parse now items hours) ∧
      (∀ k, (cleanup_and_sort_news parse now items hours).filter
          (fun x => decide (x.scraped_at = k)) =
        (items.filter (keepItem parse (now - hours * 3600))).filter
          (fun x => decide (x.scraped_at = k))) := by
  have hmem : ∀ item, item ∈ cleanup_and_sort_news parse now items hours ↔
      item ∈ items.filter (keepItem parse (now - hours * 3600)) := by
    intro item
    rw [cleanup_eq]
    exact (sortDesc_perm _).mem_iff
  refine ⟨?_, ?_, ?_, ?_⟩
  · intro item hit t hpt
    rw [hmem, List.mem_filter]
    constructor
    · rintro ⟨-, hk⟩
      simp only [keepItem, hpt, decide_eq_true_eq] at hk
      omega
    · intro hlt
      refine ⟨hit, ?_⟩
      simp only [keepItem, hpt, decide_eq_true_eq]
      omega
  · intro item hit hpn
    rw [hmem, List.mem_filter]
    refine ⟨hit, ?_⟩
    simp [keepItem, hpn]
  · rw [cleanup_eq]
    exact sortDesc_sorted _
  · intro k
    rw [cleanup_eq]
    exact filter_sortDesc k _

/-- Witness for the amended retention theorem: a one-hour-old entry under
a 72-hour horizon is retained. -/
theorem cleanup_retention_amended_witness :
    itemOld ∈ cleanup_and_sort_news parse0 3600 [itemOld] 72 :=
  ((cleanup_retention_amended parse0 3600 72 [itemOld]).1 itemOld
    (by decide) 0 (by decide)).mpr (by decide)

/-- State of `NewsML` (bot_core.py lines 185-239): the sklearn pipeline is
opaque to this development and is represented by a value of an arbitrary
type `P`; `is_trained` is the model's trained flag. -/
structure MLState (P : Type) where
  pipeline : P
  is_trained : Bool
deriving DecidableEq, Repr

/-- `NewsML.train(articles)` (bot_core.py lines 207-227): select the
entries carrying a `user_score`; return unchanged when there are none, or
when fewer than 2 texts result; otherwise refit (`fit` abstracts
`self.pipeline.fit(texts, scores)`), set the trained flag and persist.
The second component reports whether `save()` ran. -/
def train {P : Type} (fit : P → List String → List Rat → P)
    (m : MLState P) (articles : List NewsItem) : MLState P × Bool :=
  let training_data := articles.filter (fun a => a.user_score.isSome)
  if training_data.isEmpty then (m, false)
  else
    let texts := training_data.map (fun a => a.title ++ " " ++ a.source)
    let scores := training_data.map (fun a => ((a.user_score.getD 0 : Int) : Rat))
    if texts.length < 2 then (m, false)
    else ({ pipeline := fit m.pipeline texts scores, is_trained := true }, true)

/-- C6: with fewer than 2 feedback-bearing entries, `train` is a no-op:
the state (pipeline parameters and trained flag) is returned exactly as
it was, and nothing is persisted. -/
theorem train_noop_insufficient {P : Type}
    (fit : P → List String → List Rat → P) (m : MLState P)
    (articles : List NewsItem)
    (h : (articles.filter (fun a => a.user_score.isSome)).length < 2) :
    train fit m articles = (m, false) := by
  have hmap : ((articles.filter (fun a => a.user_score.isSome)).map
      (fun a => a.title ++ " " ++ a.source)).length < 2 := by
    rw [List.length_map]; exact h
  simp only [train]
  rw [if_pos hmap]
  split <;> rfl

/-- Witness: training on a corpus whose single entry has no `user_score`
leaves a trained model (flag `true`, parameters `0`) untouched. -/
theorem train_noop_insufficient_witness :
    train (fun p _ _ => p) (⟨0, true⟩ : MLState Nat) [itemOld] =
      (⟨0, true⟩, false) :=
  train_noop_insufficient (fun p _ _ => p) ⟨0, true⟩ [itemOld] (by decide)

/-- `NewsML.predict(article)` (bot_core.py lines 229-239): the neutral 5.0
when the model is untrained; otherwise inference on `"title source"`
clamped into [1,10] by `max(1.0, min(10.0, ...))`; `inference` returns
`none` when feature extraction or prediction raises (the except arm),
which also yields 5.0.  Scores are modelled as rationals. -/
def predict {P : Type} (inference : P → String → Option Rat)
    (m : MLState P) (a : NewsItem) : Rat :=
  if m.is_trained = false then 5
  else
    match inference m.pipeline (a.title ++ " " ++ a.source) with
    | some p => max 1 (min 10 p)
    | none => 5

/-- C4: `predict` always returns a value in [1,10]; on an untrained model
it returns exactly 5; and when inference fails for the given input it
returns 5 instead of raising (the function is total). -/
theorem predict_bounds {P : Type} (inference : P → String → Option Rat)
    (m : MLState P) (a : NewsItem) :
    (1 ≤ predict inference m a ∧ predict inference m a ≤ 10) ∧
      (m.is_trained = false → predict inference m a = 5) ∧
      (inference m.pipeline (a.title ++ " " ++ a.source) = none →
        predict inference m a = 5) := by
  unfold predict
  by_cases ht : m.is_trained = false
  · rw [if_pos ht]
    exact ⟨⟨by norm_num, by norm_num⟩, fun _ => rfl, fun _ => rfl⟩
  · rw [if_neg ht]
    cases hinf : inference m.pipeline (a.title ++ " " ++ a.source) with
    | none =>
      refine ⟨⟨by norm_num, by norm_num⟩, fun hf => absurd hf ht, fun _ => rfl⟩
    | some p =>
      refine ⟨⟨le_max_left _ _, max_le (by norm_num) (min_le_left _ _)⟩,
        fun hf => absurd hf ht, fun hn => Option.noConfusion hn⟩

/-- Witness: an untrained model predicts exactly 5. -/
theorem predict_bounds_witness :
    predict (fun (_ : Unit) (_ : String) => (none : Option Rat))
      ⟨(), false⟩ itemOld = 5 :=
  (predict_bounds (fun _ _ => none) ⟨(), false⟩ itemOld).2.1 rfl

/-- Outcome of one `create_page` attempt against the mirror service:
success with a page URL, a rate-limit ("flood" in the exception text)
failure, or any other failure. -/
inductive Outcome where
  | success (url : String)
  | flood
  | other
deriving DecidableEq, Repr

/-- Rotation state of `TelegraphPublisher`: the token pool and the cursor.
`__init__` (bot_core.py lines 107-116) sets the cursor to 0 and builds a
client exactly when the pool is non-empty, so `self.telegraph is None`
iff the pool is empty. -/
structure PubState where
  tokens : List String
  current_token_index : Nat
deriving DecidableEq, Repr

/-- `_rotate_token` (bot_core.py lines 152-156): advance the cursor
round-robin, a no-op on an empty pool. -/
def rotate_token (s : PubState) : PubState :=
  if s.tokens = [] then s
  else { s with current_token_index :=
    (s.current_token_index + 1) % s.tokens.length }

/-- What one `publish` call produces: the returned mirror URL (if any),
the cursor positions used, one per `create_page` attempt in order, and
the publisher state left behind. -/
structure PublishResult where
  url : Option String
  used : List Nat
  final : PubState
deriving DecidableEq, Repr

/-- The retry loop of `publish` (bot_core.py lines 164-183).  `outcome k`
is what the k-th `create_page` call in this publish call does (0-based);
`fuel` is `max_retries - attempts`, and only a flood failure increments
`attempts` in the source, so only a flood failure consumes fuel. -/
def publishGo (outcome : Nat → Outcome) : Nat → Nat → PubState → PublishResult
  | 0, _, s => ⟨none, [], s⟩
  | fuel + 1, k, s =>
    match outcome k with
    | .success u => ⟨some u, [s.current_token_index], s⟩
    | .flood =>
      let r := publishGo outcome fuel (k + 1) (rotate_token s)
      ⟨r.url, s.current_token_index :: r.used, r.final⟩
    | .other => ⟨none, [s.current_token_index], s⟩

/-- `publish(title, html_content, author)` (bot_core.py lines 158-183):
return `None` straight away when there is no client (empty pool);
otherwise run the loop with `max_retries = len(self.tokens)`. -/
def publish (outcome : Nat → Outcome) (s : PubState) : PublishResult :=
  if s.tokens = [] then ⟨none, [], s⟩
  else publishGo outcome s.tokens.length 0 s

/-- The cursor positions the loop would use over `m` consecutive
rotations starting from `s`. -/
def usedRun (s : PubState) (m : Nat) : List Nat :=
  (List.range m).map (fun j => (rotate_token^[j] s).current_token_index)

theorem rotate_token_tokens (s : PubState) :
    (rotate_token s).tokens = s.tokens := by
  unfold rotate_token
  split <;> rfl

theorem rotate_iter_tokens (m : Nat) (s : PubState) :
    (rotate_token^[m] s).tokens = s.tokens := by
  induction m with
  | zero => rfl
  | succ m ih => rw [Function.iterate_succ_apply', rotate_token_tokens, ih]

theorem rotate_token_index (s : PubState) (hne : s.tokens ≠ []) :
    (rotate_token s).current_token_index =
      (s.current_token_index + 1) % s.tokens.length := by
  unfold rotate_token
  rw [if_neg hne]

theorem rotate_iter_index (s : PubState) (hne : s.tokens ≠ [])
    (hi : s.current_token_index < s.tokens.length) :
    ∀ m, (rotate_token^[m] s).current_token_index =
      (s.current_token_index + m) % s.tokens.length := by
  intro m
  induction m with
  | zero => simpa using (Nat.mod_eq_of_lt hi).symm
  | succ m ih =>
    rw [Function.iterate_succ_apply',
      rotate_token_index _ (by rw [rotate_iter_tokens]; exact hne),
      rotate_iter_tokens, ih, Nat.mod_add_mod, Nat.add_assoc]

theorem usedRun_length (s : PubState) (m : Nat) :
    (usedRun s m).length = m := by
  simp [usedRun]

theorem usedRun_succ (s : PubState) (m : Nat) :
    usedRun s (m + 1) =
      s.current_token_index :: usedRun (rotate_token s) m := by
  unfold usedRun
  rw [List.range_succ_eq_map, List.map_cons, List.map_map]
  refine congrArg₂ _ rfl ?_
  refine List.map_congr_left ?_
  intro j _
  show (rotate_token^[j + 1] s).current_token_index = _
  rw [Function.iterate_succ_apply]

theorem usedRun_eq (s : PubState) (hne : s.tokens ≠ [])
    (hi : s.current_token_index < s.tokens.length) (m : Nat) :
    usedRun s m = (List.range m).map
      (fun j => (s.current_token_index + j) % s.tokens.length) := by
  unfold usedRun
  refine List.map_congr_left ?_
  intro j _
  exact rotate_iter_index s hne hi j

theorem run_nodup (i N A : Nat) (hA : A ≤ N) (_hi : i < N) :
    ((List.range A).map (fun j => (i + j) % N)).Nodup := by
  refine List.Nodup.map_on ?_ (List.nodup_range A)
  intro j1 h1 j2 h2 heq
  have hj1 : j1 < A := List.mem_range.mp h1
  have hj2 : j2 < A := List.mem_range.mp h2
  have h3 : j1 ≡ j2 [MOD N] := Nat.ModEq.add_left_cancel' i heq
  unfold Nat.ModEq at h3
  rw [Nat.mod_eq_of_lt (by omega), Nat.mod_eq_of_lt (by omega)] at h3
  exact h3

/-- Running the loop through `m` consecutive flood failures rotates `m`
times, records `m` cursor positions and continues with `m` fewer units
of fuel. -/
theorem publishGo_flood_run (outcome : Nat → Outcome) :
    ∀ (m fuel k : Nat) (s : PubState),
      (∀ j, j < m → outcome (k + j) = Outcome.flood) → m ≤ fuel →
      publishGo outcome fuel k s =
        ⟨(publishGo outcome (fuel - m) (k + m) (rotate_token^[m] s)).url,
          usedRun s m ++
            (publishGo outcome (fuel - m) (k + m) (rotate_token^[m] s)).used,
          (publishGo outcome (fuel - m) (k + m) (rotate_token^[m] s)).final⟩ := by
  intro m
  induction m with
  | zero =>
    intro fuel k s hfl hle
    simp [usedRun]
  | succ m ih =>
    intro fuel k s hfl hle
    obtain ⟨f, rfl⟩ : ∃ f, fuel = f + 1 := ⟨fuel - 1, by omega⟩
    have h0 : outcome k = Outcome.flood := by
      have h0 := hfl 0 (by omega)
      rwa [Nat.add_zero] at h0
    have hstep : publishGo outcome (f + 1) k s =
        ⟨(publishGo outcome f (k + 1) (rotate_token s)).url,
          s.current_token_index ::
            (publishGo outcome f (k + 1) (rotate_token s)).used,
          (publishGo outcome f (k + 1) (rotate_token s)).final⟩ := by
      simp [publishGo, h0]
    have ihs := ih f (k + 1) (rotate_token s)
      (fun j hj => by
        have h2 := hfl (j + 1) (by omega)
        have he : k + (j + 1) = k + 1 + j := by omega
        rwa [he] at h2)
      (by omega)
    rw [hstep, ihs, usedRun_succ]
    have e1 : f + 1 - (m + 1) = f - m := by omega
    have e2 : k + (m + 1) = k + 1 + m := by omega
    rw [e1, e2, Function.iterate_succ_apply, List.cons_append]

/-- C1: starting from any valid cursor with a non-empty pool of N tokens,
if the first M `create_page` calls hit flood control and call M would
succeed: when M < N the call returns the mirror URL after exactly M+1
attempts; when M ≥ N it returns `None` after exactly N attempts; and in
either case no cursor position is used twice within the call. -/
theorem publish_rotation_bound (s : PubState) (hne : s.tokens ≠ [])
    (hi : s.current_token_index < s.tokens.length) (M : Nat) (u : String)
    (outcome : Nat → Outcome)
    (hfl : ∀ k, k < M → outcome k = Outcome.flood)
    (hsu : outcome M = Outcome.success u) :
    (publish outcome s).used.Nodup ∧
      (M < s.tokens.length →
        (publish outcome s).url = some u ∧
          (publish outcome s).used.length = M + 1) ∧
      (s.tokens.length ≤ M →
        (publish outcome s).url = none ∧
          (publish outcome s).used.length = s.tokens.length) := by
  have hpub : publish outcome s = publishGo outcome s.tokens.length 0 s := by
    unfold publish
    rw [if_neg hne]
  by_cases hM : M < s.tokens.length
  · have hrun := publishGo_flood_run outcome M s.tokens.length 0 s
      (fun j hj => by simpa using hfl j hj) (le_of_lt hM)
    rw [Nat.zero_add] at hrun
    obtain ⟨t, ht⟩ : ∃ t, s.tokens.length - M = t + 1 :=
      ⟨s.tokens.length - M - 1, by omega⟩
    rw [ht] at hrun
    have htail : publishGo outcome (t + 1) M (rotate_token^[M] s) =
        ⟨some u, [(rotate_token^[M] s).current_token_index],
          rotate_token^[M] s⟩ := by
      simp [publishGo, hsu]
    rw [htail] at hrun
    rw [hpub, hrun]
    have hEq : usedRun s M ++ [(rotate_token^[M] s).current_token_index] =
        (List.range (M + 1)).map
          (fun j => (s.current_token_index + j) % s.tokens.length) := by
      rw [usedRun_eq s hne hi, rotate_iter_index s hne hi, List.range_succ,
        List.map_append]
      rfl
    refine ⟨?_, fun _ => ⟨rfl, ?_⟩, fun hc => absurd hM (by omega)⟩
    · show (usedRun s M ++ [(rotate_token^[M] s).current_token_index]).Nodup
      rw [hEq]
      exact run_nodup _ _ _ (by omega) hi
    · show (usedRun s M ++
        [(rotate_token^[M] s).current_token_index]).length = M + 1
      rw [List.length_append, usedRun_length, List.length_singleton]
  · push_neg at hM
    have hrun := publishGo_flood_run outcome s.tokens.length
      s.tokens.length 0 s
      (fun j hj => by simpa using hfl j (lt_of_lt_of_le hj hM)) (le_refl _)
    rw [Nat.zero_add, Nat.sub_self] at hrun
    have htail : publishGo outcome 0 s.tokens.length
        (rotate_token^[s.tokens.length] s) =
        ⟨none, [], rotate_token^[s.tokens.length] s⟩ := rfl
    rw [htail] at hrun
    rw [hpub, hrun]
    refine ⟨?_, fun hc => absurd hc (by omega), fun _ => ⟨rfl, ?_⟩⟩
    · show (usedRun s s.tokens.length ++ []).Nodup
      rw [List.append_nil, usedRun_eq s hne hi]
      exact run_nodup _ _ _ (le_refl _) hi
    · show (usedRun s s.tokens.length ++ []).length = s.tokens.length
      rw [List.append_nil, usedRun_length]

/-- A three-token pool with the cursor at its initial position. -/
def pubW : PubState := ⟨["a", "b", "c"], 0⟩

/-- One flood failure, then success. -/
def outcomeW : Nat → Outcome :=
  fun k => if k = 0 then Outcome.flood else Outcome.success "http://t.me/p"

/-- Witness: with 3 tokens and 1 flood failure, publish succeeds on the
second attempt without reusing a cursor position. -/
theorem publish_rotation_bound_witness :
    (publish outcomeW pubW).used.Nodup ∧
      (1 < pubW.tokens.length →
        (publish outcomeW pubW).url = some "http://t.me/p" ∧
          (publish outcomeW pubW).used.length = 1 + 1) ∧
      (pubW.tokens.length ≤ 1 →
        (publish outcomeW pubW).url = none ∧
          (publish outcomeW pubW).used.length = pubW.tokens.length) :=
  publish_rotation_bound pubW (by decide) (by decide) 1 "http://t.me/p"
    outcomeW
    (fun k hk => by
      have hk0 : k = 0 := by omega
      subst hk0
      rfl)
    (by rfl)

/-- C7: if the first M calls hit flood control and call M fails with a
non-rate-limit error, publish stops right there: it returns `None`, made
exactly M+1 attempts, and rotated only M times (no rotation after the
aborting attempt). -/
theorem publish_other_abort (s : PubState) (hne : s.tokens ≠ [])
    (hi : s.current_token_index < s.tokens.length) (M : Nat)
    (outcome : Nat → Outcome)
    (hfl : ∀ k, k < M → outcome k = Outcome.flood)
    (hot : outcome M = Outcome.other) (hM : M < s.tokens.length) :
    (publish outcome s).url = none ∧
      (publish outcome s).used.length = M + 1 ∧
      (publish outcome s).final.current_token_index =
        (s.current_token_index + M) % s.tokens.length := by
  have hpub : publish outcome s = publishGo outcome s.tokens.length 0 s := by
    unfold publish
    rw [if_neg hne]
  have hrun := publishGo_flood_run outcome M s.tokens.length 0 s
    (fun j hj => by simpa using hfl j hj) (le_of_lt hM)
  rw [Nat.zero_add] at hrun
  obtain ⟨t, ht⟩ : ∃ t, s.tokens.length - M = t + 1 :=
    ⟨s.tokens.length - M - 1, by omega⟩
  rw [ht] at hrun
  have htail : publishGo outcome (t + 1) M (rotate_token^[M] s) =
      ⟨none, [(rotate_token^[M] s).current_token_index],
        rotate_token^[M] s⟩ := by
    simp [publishGo, hot]
  rw [htail] at hrun
  rw [hpub, hrun]
  refine ⟨rfl, ?_, ?_⟩
  · show (usedRun s M ++
      [(rotate_token^[M] s).current_token_index]).length = M + 1
    rw [List.length_append, usedRun_length, List.length_singleton]
  · show (rotate_token^[M] s).current_token_index = _
    exact rotate_iter_index s hne hi M

/-- One flood failure, then a non-rate-limit failure. -/
def outcomeO : Nat → Outcome :=
  fun k => if k = 0 then Outcome.flood else Outcome.other

/-- Witness: with 3 tokens, a flood failure then an other failure gives
`None` after exactly 2 attempts and a single rotation. -/
theorem publish_other_abort_witness :
    (publish outcomeO pubW).url = none ∧
      (publish outcomeO pubW).used.length = 1 + 1 ∧
      (publish outcomeO pubW).final.current_token_index =
        (pubW.current_token_index + 1) % pubW.tokens.length :=
  publish_other_abort pubW (by decide) (by decide) 1 outcomeO
    (fun k hk => by
      have hk0 : k = 0 := by omega
      subst hk0
      rfl)
    (by rfl) (by decide)

/-- C10: with an empty pool `publish` returns `None` immediately:
no attempt is made, no rotation happens, for any outcome stream. -/
theorem publish_empty_pool (outcome : Nat → Outcome) (s : PubState)
    (h : s.tokens = []) : publish outcome s = ⟨none, [], s⟩ := by
  unfold publish
  rw [if_pos h]

/-- Witness: a publisher with no tokens returns no URL and makes zero
attempts. -/
theorem publish_empty_pool_witness :
    publish outcomeW ⟨[], 0⟩ = ⟨none, [], ⟨[], 0⟩⟩ :=
  publish_empty_pool outcomeW ⟨[], 0⟩ rfl

/-- The provisioning loop of `_load_or_create_accounts` (bot_core.py
lines 132-143): while the pool holds fewer than 5 tokens, call
`create_account`; a successful call appends the new token, a raising call
breaks the loop.  `create n` models the call made when the pool holds
`n` tokens (`none` = the call raised).  Each successful iteration grows
the pool, so 5 units of fuel always cover the `while len(tokens) < 5`
loop. -/
def provisionLoop (create : Nat → Option String) :
    Nat → List String → List String
  | 0, tokens => tokens
  | fuel + 1, tokens =>
    if tokens.length < 5 then
      match create tokens.length with
      | some t => provisionLoop create fuel (tokens ++ [t])
      | none => tokens
    else tokens

/-- `_load_or_create_accounts` (bot_core.py lines 118-150) after the file
read: `loaded` is the token list recovered from disk; when it holds fewer
than 5 tokens the provisioning loop runs and the token file is rewritten
(second component `true`), otherwise nothing happens. -/
def load_or_create_accounts (create : Nat → Option String)
    (loaded : List String) : List String × Bool :=
  if loaded.length < 5 then (provisionLoop create 5 loaded, true)
  else (loaded, false)

theorem provisionLoop_stops (create : Nat → Option String) (fuel : Nat)
    (tokens : List String) (h : ¬ tokens.length < 5) :
    provisionLoop create fuel tokens = tokens := by
  cases fuel with
  | zero => rfl
  | succ f =>
    unfold provisionLoop
    rw [if_neg h]

theorem provisionLoop_length (create : Nat → Option String)
    (hall : ∀ n, (create n).isSome) :
    ∀ (fuel : Nat) (tokens : List String), tokens.length < 5 →
      5 ≤ tokens.length + fuel →
      (provisionLoop create fuel tokens).length = 5 := by
  intro fuel
  induction fuel with
  | zero =>
    intro tokens h5 hge
    omega
  | succ f ih =>
    intro tokens h5 hge
    obtain ⟨t, hct⟩ := Option.isSome_iff_exists.mp (hall tokens.length)
    unfold provisionLoop
    rw [if_pos h5, hct]
    show (provisionLoop create f (tokens ++ [t])).length = 5
    by_cases h2 : (tokens ++ [t]).length < 5
    · refine ih (tokens ++ [t]) h2 ?_
      rw [List.length_append, List.length_singleton]
      omega
    · rw [provisionLoop_stops create f (tokens ++ [t]) h2]
      rw [List.length_append, List.length_singleton] at h2 ⊢
      omega

theorem provisionLoop_extends (create : Nat → Option String) :
    ∀ (fuel : Nat) (tokens : List String),
      ∃ extra, provisionLoop create fuel tokens = tokens ++ extra := by
  intro fuel
  induction fuel with
  | zero =>
    intro tokens
    exact ⟨[], by simp [provisionLoop]⟩
  | succ f ih =>
    intro tokens
    unfold provisionLoop
    by_cases h : tokens.length < 5
    · rw [if_pos h]
      cases hct : create tokens.length with
      | none => exact ⟨[], by simp⟩
      | some t =>
        obtain ⟨extra, he⟩ := ih (tokens ++ [t])
        refine ⟨[t] ++ extra, ?_⟩
        show provisionLoop create f (tokens ++ [t]) = tokens ++ ([t] ++ extra)
        rw [he, List.append_assoc]
    · rw [if_neg h]
      exact ⟨[], by simp⟩

/-- C8 (counterexample): when every provisioning call fails (the except
arm of `create_account`, which breaks the loop), construction leaves the
pool with FEWER than 5 credentials — here none at all — refuting the
claim that the pool always reaches the minimum size 5. -/
theorem pool_min_counterexample :
    ¬ 5 ≤ (load_or_create_accounts (fun _ => none) []).1.length := by
  decide

/-- C8 (amended): when every provisioning call succeeds, construction
tops the pool up to at least 5 credentials (exactly 5 when fewer were
loaded), keeps the loaded tokens as a prefix, and rewrites the credential
file exactly when provisioning was needed; a failing provisioning call
may leave the pool below the minimum. -/
theorem pool_min_amended (create : Nat → Option String)
    (loaded : List String) (hall : ∀ n, (create n).isSome) :
    5 ≤ (load_or_create_accounts create loaded).1.length ∧
      (loaded.length < 5 →
        (load_or_create_accounts create loaded).1.length = 5) ∧
      (∃ extra, (load_or_create_accounts create loaded).1 = loaded ++ extra) ∧
      (load_or_create_accounts create loaded).2 = decide (loaded.length < 5) := by
  unfold load_or_create_accounts
  by_cases h : loaded.length < 5
  · rw [if_pos h]
    have hlen := provisionLoop_length create hall 5 loaded h (by omega)
    refine ⟨?_, fun _ => ?_, ?_, ?_⟩
    · show 5 ≤ (provisionLoop create 5 loaded).length
      omega
    · show (provisionLoop create 5 loaded).length = 5
      exact hlen
    · show ∃ extra, provisionLoop create 5 loaded = loaded ++ extra
      exact provisionLoop_extends create 5 loaded
    · show true = decide (loaded.length < 5)
      simp [h]
  · rw [if_neg h]
    refine ⟨?_, fun hc => absurd hc h, ⟨[], by simp⟩, ?_⟩
    · show 5 ≤ loaded.length
      omega
    · show false = decide (loaded.length < 5)
      simp [h]

/-- Witness: with an empty credential file and a provisioner that always
succeeds, the constructed pool holds exactly 5 credentials. -/
theorem pool_min_amended_witness :
    (load_or_create_accounts (fun _ => some "tok") []).1.length = 5 :=
  (pool_min_amended (fun _ => some "tok") [] (fun _ => rfl)).2.1 (by decide)

/-- The derived article id (bot_core.py lines 90 and 346, scraper.py
lines 108 and 170): `abs(hash(href))`.  Python's builtin `hash` on
strings is salted with a per-process random seed (PYTHONHASHSEED), so it
is not a function of the URL alone; the process hash is therefore an
explicit parameter here. -/
def article_id (pyHash : String → Int) (url : String) : Nat :=
  (pyHash url).natAbs

/-- C9 (refutation evidence): the id the code derives depends on the
process hash function and not only on the URL — two process hash
functions (two seeds) give different ids for the same URL — so the id is
not reproducible across restarts, contradicting the stated requirement. -/
theorem article_id_seed_dependent :
    ∃ h₁ h₂ : String → Int,
      article_id h₁ "https://www.bbc.com/a" ≠
        article_id h₂ "https://www.bbc.com/a" :=
  ⟨fun _ => 0, fun _ => 1, by decide⟩

end NewsScraper
